import Mathlib

/-!
Verification of the legal-case analyzer (`scripts/analyze_case.py`).

The pure core of the program is embedded shallowly:
* `preprocess_text` — the text normalizer (lowercase, strip non-letters, collapse whitespace);
* `findallP` / `extract_parties` — the regex-based participant extractor;
* `get_section_explanation` / `get_recommendations` — the explanation cascade and
  the confidence-tier recommendation tables;
* `analyze_case` — the orchestrator, with the externally loaded artifacts
  (classifier, vectorizer, label decoder) modelled as fallible functions.

Machine floats of the original are modelled as rationals; Python strings as
Lean `String` / `List Char` with ASCII case folding.
-/

/-- ASCII lowercase letter test, `[a-z]`. -/
def isLowerB (c : Char) : Bool := 97 ≤ c.toNat && c.toNat ≤ 122

/-- ASCII letter test: the regex character class `[A-Za-z]`. -/
def isAsciiAlphaB (c : Char) : Bool :=
  (97 ≤ c.toNat && c.toNat ≤ 122) || (65 ≤ c.toNat && c.toNat ≤ 90)

/-- Whitespace as matched by the regex class `\s` and by `str.split()`
(ASCII part: space, tab, newline, carriage return, vertical tab, form feed). -/
def isPySpace (c : Char) : Bool :=
  c.toNat = 32 || c.toNat = 9 || c.toNat = 10 || c.toNat = 13 ||
  c.toNat = 11 || c.toNat = 12

/-- Per-character case folding of `str.lower()` (ASCII range). -/
def lowChar (c : Char) : Char :=
  if 65 ≤ c.toNat ∧ c.toNat ≤ 90 then Char.ofNat (c.toNat + 32) else c

/-- One character of `re.sub(r'[^a-zA-Z\s]', ' ', text)`: letters and
whitespace are kept, everything else becomes a space. -/
def keepChar (c : Char) : Char :=
  if isAsciiAlphaB c || isPySpace c then c else ' '

/-- Helper for `str.split()`: accumulates the current word (reversed) and
splits on whitespace, dropping empty fragments. -/
def splitAux : List Char → List Char → List (List Char)
  | [], acc => if acc.isEmpty then [] else [acc.reverse]
  | c :: rest, acc =>
    if isPySpace c then
      if acc.isEmpty then splitAux rest [] else acc.reverse :: splitAux rest []
    else
      splitAux rest (c :: acc)

/-- `text.split()`: split on whitespace runs, no empty words. -/
def pySplit (l : List Char) : List (List Char) := splitAux l []

/-- `' '.join(words)`. -/
def pyJoin : List (List Char) → List Char
  | [] => []
  | [w] => w
  | w :: ws => w ++ ' ' :: pyJoin ws

/-- `preprocess_text`: lowercase, replace non-letters by spaces, collapse
whitespace (`' '.join(text.split())`). -/
def preprocess_text (l : List Char) : List Char :=
  pyJoin (pySplit ((l.map lowChar).map keepChar))

/-- `preprocess_text` on `String`. -/
def preprocessStr (s : String) : String := String.mk (preprocess_text s.data)

/-- `str.lower()` on `String` (ASCII folding). -/
def lowerStr (s : String) : String := String.mk (s.data.map lowChar)

/-- Does `l` start with the literal character list `p`? -/
def startsWithL : List Char → List Char → Bool
  | _, [] => true
  | [], _ :: _ => false
  | c :: cs, p :: ps => c == p && startsWithL cs ps

/-- Substring test: Python's `pat in hay` on character lists. -/
def containsSub : List Char → List Char → Bool
  | [], p => p.isEmpty
  | c :: rest, p => startsWithL (c :: rest) p || containsSub rest p

/-- Python's `pat in hay.lower()` membership test for strings. -/
def containsStr (hay pat : String) : Bool := containsSub hay.data pat.data

/-- Case-insensitive literal match at the head of the list (regex literal
under `re.IGNORECASE`; the pattern `p` is given lowercase). -/
def startsWithCI : List Char → List Char → Bool
  | _, [] => true
  | [], _ :: _ => false
  | c :: cs, p :: ps => lowChar c == p && startsWithCI cs ps

/-- The literal `person` of the participant regex. -/
def personLit : List Char := ['p', 'e', 'r', 's', 'o', 'n']

/-- First alternative of the participant regex, `person\s+[A-Za-z]`, tried at
the head of `l`; returns the matched text and the remaining input.  The
quantifier `\s+` is greedy; since `\s` and `[A-Za-z]` are disjoint classes no
backtracking can succeed, so maximal-run matching is exact. -/
def tryAlt1 (l : List Char) : Option (List Char × List Char) :=
  if startsWithCI l personLit then
    let r6 := l.drop 6
    let sp := r6.takeWhile isPySpace
    match sp, r6.dropWhile isPySpace with
    | _ :: _, d :: r => if isAsciiAlphaB d then some (l.take 6 ++ sp ++ [d], r) else none
    | _, _ => none
  else none

/-- Second alternative, `[A-Za-z]+\s+[A-Za-z]+`, tried at the head of `l`:
maximal letter run, maximal whitespace run, maximal letter run. -/
def tryAlt2 (l : List Char) : Option (List Char × List Char) :=
  let w1 := l.takeWhile isAsciiAlphaB
  let r1 := l.dropWhile isAsciiAlphaB
  let sp := r1.takeWhile isPySpace
  let r2 := r1.dropWhile isPySpace
  let w2 := r2.takeWhile isAsciiAlphaB
  if w1.isEmpty || sp.isEmpty || w2.isEmpty then none
  else some (w1 ++ sp ++ w2, r2.dropWhile isAsciiAlphaB)

/-- `re.findall` scan: at each position try alternative 1 then alternative 2;
on a match continue after it, otherwise advance one character.  Fuelled by the
input length (every match consumes at least one character). -/
def findallAux : Nat → List Char → List (List Char)
  | 0, _ => []
  | _ + 1, [] => []
  | fuel + 1, c :: rest =>
    match tryAlt1 (c :: rest) with
    | some (m, r) => m :: findallAux fuel r
    | none =>
      match tryAlt2 (c :: rest) with
      | some (m, r) => m :: findallAux fuel r
      | none => findallAux fuel rest

/-- `re.findall(r'(person\s+[A-Za-z]|[A-Za-z]+\s+[A-Za-z]+)', text, re.IGNORECASE)`. -/
def findallP (l : List Char) : List (List Char) := findallAux l.length l

/-- Match of `person\s+letter` (case-insensitive) at the head of `l`. -/
def matchPA (letter : Char) (l : List Char) : Bool :=
  startsWithCI l personLit &&
    (let r6 := l.drop 6
     match r6.takeWhile isPySpace, r6.dropWhile isPySpace with
     | _ :: _, d :: _ => lowChar d == letter
     | _, _ => false)

/-- `re.search(r'person\s+letter', text, re.IGNORECASE)`: the pattern occurs
somewhere in the text. -/
def searchPL (letter : Char) : List Char → Bool
  | [] => false
  | c :: rest => matchPA letter (c :: rest) || searchPL letter rest

/-- The excluded lowercase forms in the generic pass of `extract_parties`. -/
def badPartyL : List String := ["person a", "person b", "person c"]

/-- Loop body of the generic pass of `extract_parties`: skip a match whose
lowercase form is one of the canonical three, skip case-insensitive
duplicates, otherwise append. -/
def addParty (parties : List String) (m : String) : List String :=
  if lowerStr m ∈ badPartyL then parties
  else if lowerStr m ∈ parties.map lowerStr then parties
  else parties ++ [m]

/-- The generic-pattern pass of `extract_parties`. -/
def genericPass (text : String) : List String :=
  ((findallP text.data).map (fun m => String.mk m)).foldl addParty []

/-- `extract_parties`: generic regex pass, then the three canonical
appends (checked on the raw text, case-insensitively). -/
def extract_parties (text : String) : List String :=
  let parties := genericPass text
  let parties := if searchPL 'a' text.data then parties ++ ["Person A"] else parties
  let parties := if searchPL 'b' text.data then parties ++ ["Person B"] else parties
  let parties := if searchPL 'c' text.data then parties ++ ["Person C"] else parties
  parties

/-- Explanation block for section 302. -/
def expl302 : String :=
  "Murder:\n- Punishment: Death or imprisonment for life, and fine\n- For proving murder, the prosecution must establish intention to cause death\n- The case must show premeditation or intention to cause bodily injury sufficient to cause death"

/-- Explanation block for section 304. -/
def expl304 : String :=
  "Culpable Homicide Not Amounting to Murder:\n- Punishment: Imprisonment for life, or up to 10 years, and fine\n- Applies when death is caused without the intention to cause death\n- May apply when the act is done with the knowledge that it is likely to cause death"

/-- Explanation block for section 304A. -/
def expl304A : String :=
  "Death by Negligence:\n- Punishment: Imprisonment up to 2 years, or fine, or both\n- Applies when death is caused by a rash or negligent act\n- No intention to cause death or knowledge that the act would likely cause death"

/-- Explanation block for section 308. -/
def expl308 : String :=
  "Attempt to Commit Culpable Homicide:\n- Punishment: Imprisonment up to 3 years, or fine, or both\n- Applies when an act is done with the intention of causing culpable homicide\n- The attempt does not result in death"

/-- Explanation block for section 319. -/
def expl319 : String :=
  "Hurt:\n- Punishment: Imprisonment up to 1 year, or fine up to 1,000 rupees, or both\n- Causing bodily pain, disease, or infirmity to any person\n- Includes physical injury that causes pain"

/-- Explanation block for section 320. -/
def expl320 : String :=
  "Grievous Hurt:\n- Punishment: Imprisonment up to 7 years, and fine\n- Includes emasculation, permanent privation of sight or hearing, fracture or dislocation of bones, or any hurt which endangers life"

/-- Explanation block for section 376. -/
def expl376 : String :=
  "Rape:\n- Punishment: Rigorous imprisonment for a term not less than 7 years, may extend to life, and fine\n- Sexual intercourse without consent or with consent obtained under fear, threat, or false promises"

/-- Explanation block for section 379. -/
def expl379 : String :=
  "Theft:\n- Punishment: Imprisonment up to 3 years, or fine, or both\n- Involves dishonestly taking property without consent\n- Must be done with the intention to permanently deprive the owner of the property"

/-- Explanation block for section 392. -/
def expl392 : String :=
  "Robbery:\n- Punishment: Rigorous imprisonment up to 10 years, and fine\n- Theft with the use of force or fear of force\n- Includes attempt to cause death, hurt, or wrongful restraint to commit theft"

/-- Explanation block for section 420. -/
def expl420 : String :=
  "Cheating and Dishonestly Inducing Delivery of Property:\n- Punishment: Imprisonment up to 7 years and fine\n- Involves fraudulent or deceptive practices resulting in wrongful gain\n- Must show intention to defraud from the beginning"

/-- Explanation block for section 499. -/
def expl499 : String :=
  "Defamation:\n- Punishment: Simple imprisonment up to 2 years, or fine, or both\n- Making or publishing imputations concerning any person with intent to harm their reputation\n- Exceptions include truth for public good, fair comment on public conduct, etc."

/-- Explanation block for section 300. -/
def expl300 : String :=
  "Definition of Murder:\n- When the act is done with the intention of causing death\n- When the act is done with the intention of causing bodily injury likely to cause death\n- When the act is done with the knowledge that it is likely to cause death"

/-- Explanation block for section 100. -/
def expl100 : String :=
  "Right of Private Defence of the Body Extending to Causing Death:\n- No punishment as it is a defense, not an offense\n- Applies when there is reasonable apprehension of death or grievous hurt\n- The threat must be immediate and not avoidable by other means\n- Force used must be proportionate to the threat"

/-- Explanation block for section 76. -/
def expl76 : String :=
  "Act Done by a Person Bound by Law:\n- No offense if the act is done by a person who is bound by law to do it\n- The person must believe in good faith that they are bound by law to do the act"

/-- Explanation block for section 79. -/
def expl79 : String :=
  "Act Done by a Person Justified by Law:\n- No offense if the act is justified by law\n- The person must believe in good faith that they are justified by law to do the act"

/-- The fixed self-defense narrative of `get_self_defense_explanation`. -/
def selfDefenseText : String :=
  "It depends on the circumstances. If Person B kills Person A in self-defense to protect himself, then Person B would NOT be considered guilty of murder or culpable homicide.\n\nThis scenario is covered under Section 100 of IPC (Right of Private Defence of the Body Extending to Causing Death):\n- This allows a person to cause death in self-defense when there is reasonable apprehension of death or grievous hurt\n- For self-defense to be valid, the threat must be immediate and not avoidable by other means\n- The force used must be proportionate to the threat\n\nIf the case involves excessive force beyond what was necessary for self-defense, Person B may be guilty of culpable homicide not amounting to murder under Section 304.\n\nIf death occurred due to actions taken as part of legitimate self-defense, Person B would not be considered guilty at all."

/-- The fixed labor-law narrative of `get_labor_law_explanation`. -/
def laborLawText : String :=
  "Failure to pay minimum wage is primarily a violation under labor laws, specifically:\n\n1. The Minimum Wages Act, 1948:\n   - Section 22: Imprisonment up to 6 months or fine up to 500 rupees, or both\n   - Employers are legally obligated to pay at least the minimum wage as notified\n\n2. Under the Indian Penal Code, it may be considered:\n   - Section 420 (Cheating): If the employer induced work with no intention to pay\n   - May also be considered as criminal breach of trust in certain circumstances\n\nThe employee can:\n1. File a complaint with the Labor Commissioner\n2. File a civil suit for recovery of wages\n3. In egregious cases, file a criminal complaint for cheating\n\nThe exact penalty depends on:\n- Whether this was a systematic practice\n- Number of employees affected\n- Duration of non-payment\n- Whether there was deceit involved"

/-- `get_self_defense_explanation` (the argument is ignored by the source). -/
def get_self_defense_explanation (_case_text : String) : String := selfDefenseText

/-- `get_labor_law_explanation` (the argument is ignored by the source). -/
def get_labor_law_explanation (_case_text : String) : String := laborLawText

/-- `get_section_explanation`: the special-case cascade (self-defense, then
labor law), then the static per-section table, then the generic fallback. -/
def get_section_explanation (sec : String) (case_text : String) : String :=
  if containsStr (lowerStr case_text) "self-defense" || containsStr (lowerStr case_text) "self defense" then
    get_self_defense_explanation case_text
  else if containsStr (lowerStr case_text) "minimum wage" || containsStr (lowerStr case_text) "labor" || containsStr (lowerStr case_text) "employer" then
    get_labor_law_explanation case_text
  else if sec = "302" then expl302
  else if sec = "304" then expl304
  else if sec = "304A" then expl304A
  else if sec = "308" then expl308
  else if sec = "319" then expl319
  else if sec = "320" then expl320
  else if sec = "376" then expl376
  else if sec = "379" then expl379
  else if sec = "392" then expl392
  else if sec = "420" then expl420
  else if sec = "499" then expl499
  else if sec = "300" then expl300
  else if sec = "100" then expl100
  else if sec = "76" then expl76
  else if sec = "79" then expl79
  else "Section " ++ sec ++ " of the Indian Penal Code"

/-- High-confidence recommendation block. -/
def recHigh : String :=
  "Recommendations:\n- Strong confidence in legal analysis\n- Recommended to proceed with legal proceedings under the identified section\n- Document all evidence thoroughly"

/-- Moderate-confidence recommendation block. -/
def recModerate : String :=
  "Recommendations:\n- Moderate confidence in legal analysis\n- Further investigation and evidence gathering recommended\n- Consider consulting a legal expert for case-specific advice"

/-- Low-confidence recommendation block. -/
def recLow : String :=
  "Recommendations:\n- Low confidence in automated analysis\n- Consult legal experts for detailed evaluation\n- Consider gathering more case details and evidence\n- Complex case may involve multiple legal provisions"

/-- `get_recommendations`: three confidence bands tested in order. -/
def get_recommendations (confidence : ℚ) : String :=
  if confidence > 80 then recHigh
  else if confidence > 60 then recModerate
  else recLow

/-- `np.max` over a probability vector (the empty case never arises for a
classifier output; it is given the junk value 0). -/
def npMax : List ℚ → ℚ
  | [] => 0
  | x :: xs => xs.foldl max x

/-- The confidence computation of `analyze_case`:
`confidence = np.max(probabilities) * 100`. -/
def confidenceOf (probabilities : List ℚ) : ℚ := npMax probabilities * 100

/-- The externally supplied artifacts (fitted vectorizer, classifier and
label decoder), each step fallible like the Python calls it models. -/
structure Artifacts where
  vectorize : String → Except String (List ℚ)
  predict : List ℚ → Except String Nat
  predictProba : List ℚ → Except String (List ℚ)
  inverse_transform : Nat → Except String String

/-- The fallible part of `analyze_case` in source order: artifact loading,
vectorization of the preprocessed text, point prediction, probability
distribution, label decoding. -/
def runPipeline (load : Except String Artifacts) (case_text : String) :
    Except String (String × List ℚ) :=
  match load with
  | .error e => .error e
  | .ok a =>
    match a.vectorize (preprocessStr case_text) with
    | .error e => .error e
    | .ok v =>
      match a.predict v with
      | .error e => .error e
      | .ok pred =>
        match a.predictProba v with
        | .error e => .error e
        | .ok probabilities =>
          match a.inverse_transform pred with
          | .error e => .error e
          | .ok sec => .ok (sec, probabilities)

/-- The fixed remediation message of the failure record. -/
def errMessage : String :=
  "An error occurred during analysis. Please check if all model files are available."

/-- `analyze_case`'s result dictionary: either the success record or the
failure record produced by the `except` branch — a tagged union. -/
inductive AnalysisResult where
  | success (case_text : String) (predicted_section : String) (confidence : ℚ)
      (parties : List String) (explanation : String) (recommendations : String)
  | failure (case_text : String) (error : String) (message : String)
  deriving DecidableEq

/-- `analyze_case`: run the fallible pipeline; on success assemble the result
record, on any exception return the failure record. -/
def analyze_case (load : Except String Artifacts) (case_text : String) : AnalysisResult :=
  match runPipeline load case_text with
  | .ok (sec, probabilities) =>
    let confidence := confidenceOf probabilities
    .success case_text sec confidence (extract_parties case_text)
      (get_section_explanation sec case_text) (get_recommendations confidence)
  | .error e => .failure case_text e errMessage

/-- The initial value of a `foldl max` is bounded by the result. -/
lemma le_foldl_max (xs : List ℚ) : ∀ a : ℚ, a ≤ xs.foldl max a := by
  induction xs with
  | nil => intro a; exact le_refl a
  | cons y ys ih =>
    intro a
    exact le_trans (le_max_left a y) (ih (max a y))

/-- Every list element is bounded by the result of `foldl max`. -/
lemma mem_le_foldl_max (xs : List ℚ) : ∀ (a x : ℚ), x ∈ xs → x ≤ xs.foldl max a := by
  induction xs with
  | nil => intro a x hx; cases hx
  | cons y ys ih =>
    intro a x hx
    rcases List.mem_cons.mp hx with h | h
    · subst h
      exact le_trans (le_max_right a x) (le_foldl_max ys (max a x))
    · exact ih (max a y) x h

/-- The result of `foldl max` is the initial value or a list element. -/
lemma foldl_max_mem (xs : List ℚ) : ∀ a : ℚ, xs.foldl max a = a ∨ xs.foldl max a ∈ xs := by
  induction xs with
  | nil => intro a; exact Or.inl rfl
  | cons y ys ih =>
    intro a
    rcases ih (max a y) with h | h
    · rcases max_choice a y with hm | hm
      · exact Or.inl (h.trans hm)
      · exact Or.inr (List.mem_cons.mpr (Or.inl (h.trans hm)))
    · exact Or.inr (List.mem_cons.mpr (Or.inr h))

/-- `npMax` of a non-empty list is an element of the list. -/
lemma npMax_mem (probs : List ℚ) (h : probs ≠ []) : npMax probs ∈ probs := by
  cases probs with
  | nil => exact absurd rfl h
  | cons x xs =>
    rcases foldl_max_mem xs x with h | h
    · exact List.mem_cons.mpr (Or.inl h)
    · exact List.mem_cons.mpr (Or.inr h)

/-- `npMax` dominates every element of the list. -/
lemma le_npMax (probs : List ℚ) (x : ℚ) (hx : x ∈ probs) : x ≤ npMax probs := by
  cases probs with
  | nil => cases hx
  | cons y ys =>
    rcases List.mem_cons.mp hx with h | h
    · subst h; exact le_foldl_max ys x
    · exact mem_le_foldl_max ys y x h

/-- C1: for every probability distribution (non-empty, non-negative entries
summing to 1), the confidence computed by the classification step equals 100
times the maximum entry of the distribution, it dominates 100 times every
entry (in particular the probability of any point-prediction index), and it
lies in the interval [0, 100]. -/
theorem confidence_is_scaled_max (probabilities : List ℚ)
    (hne : probabilities ≠ []) (hnn : ∀ x ∈ probabilities, 0 ≤ x)
    (hsum : probabilities.sum = 1) :
    confidenceOf probabilities = 100 * npMax probabilities ∧
    (∀ i : Fin probabilities.length, 100 * probabilities.get i ≤ confidenceOf probabilities) ∧
    0 ≤ confidenceOf probabilities ∧ confidenceOf probabilities ≤ 100 := by
  have hmem : npMax probabilities ∈ probabilities := npMax_mem probabilities hne
  have hub : npMax probabilities ≤ 1 := by
    have := List.single_le_sum hnn (npMax probabilities) hmem
    rwa [hsum] at this
  have hlb : 0 ≤ npMax probabilities := hnn _ hmem
  refine ⟨mul_comm (npMax probabilities) 100, ?_, ?_, ?_⟩
  · intro i
    have hgi : probabilities.get i ∈ probabilities := List.get_mem probabilities i.1 i.2
    have := le_npMax probabilities _ hgi
    unfold confidenceOf
    nlinarith
  · unfold confidenceOf; nlinarith
  · unfold confidenceOf; nlinarith

/-- Witness for C1 at the concrete distribution `[9/10, 1/10]`. -/
theorem confidence_is_scaled_max_witness :
    confidenceOf [9/10, 1/10] = 100 * npMax [9/10, 1/10] ∧
    0 ≤ confidenceOf [9/10, 1/10] ∧ confidenceOf [9/10, 1/10] ≤ 100 :=
  ⟨(confidence_is_scaled_max [9/10, 1/10] (by simp) (by
      intro x hx
      rcases List.mem_cons.mp hx with h | h
      · subst h; norm_num
      · rcases List.mem_cons.mp h with h2 | h2
        · subst h2; norm_num
        · cases h2) (by
      simp [List.sum_cons, List.sum_nil]; norm_num)).1,
   (confidence_is_scaled_max [9/10, 1/10] (by simp) (by
      intro x hx
      rcases List.mem_cons.mp hx with h | h
      · subst h; norm_num
      · rcases List.mem_cons.mp h with h2 | h2
        · subst h2; norm_num
        · cases h2) (by
      simp [List.sum_cons, List.sum_nil]; norm_num)).2.2.1,
   (confidence_is_scaled_max [9/10, 1/10] (by simp) (by
      intro x hx
      rcases List.mem_cons.mp hx with h | h
      · subst h; norm_num
      · rcases List.mem_cons.mp h with h2 | h2
        · subst h2; norm_num
        · cases h2) (by
      simp [List.sum_cons, List.sum_nil]; norm_num)).2.2.2⟩

/-- C3: the recommendation function returns the high-confidence text iff the
confidence exceeds 80, the moderate text iff it lies in (60, 80], and the
low-confidence text iff it is at most 60; boundary values belong to the band
below. -/
theorem recommendation_bands (c : ℚ) :
    (get_recommendations c = recHigh ↔ 80 < c) ∧
    (get_recommendations c = recModerate ↔ 60 < c ∧ c ≤ 80) ∧
    (get_recommendations c = recLow ↔ c ≤ 60) := by
  have hHM : recHigh ≠ recModerate := by decide
  have hHL : recHigh ≠ recLow := by decide
  have hML : recModerate ≠ recLow := by decide
  unfold get_recommendations
  by_cases h1 : c > 80
  · rw [if_pos h1]
    exact ⟨⟨fun _ => h1, fun _ => rfl⟩,
      ⟨fun h => absurd h hHM, fun h => absurd h1 (not_lt.mpr h.2)⟩,
      ⟨fun h => absurd h hHL, fun h => absurd h1 (not_lt.mpr (h.trans (by norm_num)))⟩⟩
  · rw [if_neg h1]
    by_cases h2 : c > 60
    · rw [if_pos h2]
      exact ⟨⟨fun h => absurd h.symm hHM, fun h => absurd h h1⟩,
        ⟨fun _ => ⟨h2, not_lt.mp h1⟩, fun _ => rfl⟩,
        ⟨fun h => absurd h hML, fun h => absurd h2 (not_lt.mpr h)⟩⟩
    · rw [if_neg h2]
      exact ⟨⟨fun h => absurd h.symm hHL, fun h => absurd h h1⟩,
        ⟨fun h => absurd h.symm hML, fun h => absurd h.1 h2⟩,
        ⟨fun _ => not_lt.mp h2, fun _ => rfl⟩⟩

/-- Witness for C3 at the boundary and near-boundary confidences 80, 60,
80.0001 and 60.0001. -/
theorem recommendation_bands_witness :
    get_recommendations 80 = recModerate ∧ get_recommendations 60 = recLow ∧
    get_recommendations (800001/10000) = recHigh ∧
    get_recommendations (600001/10000) = recModerate :=
  ⟨(recommendation_bands 80).2.1.mpr (by norm_num),
   (recommendation_bands 60).2.2.mpr (by norm_num),
   (recommendation_bands (800001/10000)).1.mpr (by norm_num),
   (recommendation_bands (600001/10000)).2.1.mpr (by norm_num)⟩

/-- C2: the explanation cascade has fixed priority: a text containing a
self-defense phrase gets the self-defense narrative whatever the predicted
label is (and whatever other trigger phrases appear); otherwise a text
containing a labor-law phrase gets the labor-law narrative, again for every
label. -/
theorem explanation_cascade (sec text : String) :
    ((containsStr (lowerStr text) "self-defense" || containsStr (lowerStr text) "self defense") = true →
      get_section_explanation sec text = get_self_defense_explanation text) ∧
    ((containsStr (lowerStr text) "self-defense" || containsStr (lowerStr text) "self defense") = false →
      (containsStr (lowerStr text) "minimum wage" || containsStr (lowerStr text) "labor" ||
        containsStr (lowerStr text) "employer") = true →
      get_section_explanation sec text = get_labor_law_explanation text) := by
  constructor
  · intro h
    unfold get_section_explanation
    rw [if_pos h]
  · intro h1 h2
    unfold get_section_explanation
    rw [if_neg (by rw [h1]; exact Bool.false_ne_true), if_pos h2]

/-- Witness for C2: a text with both a self-defense and a labor phrase takes
the self-defense branch (even under label 420); a labor-only text takes the
labor branch (even under label 302). -/
theorem explanation_cascade_witness :
    get_section_explanation "420" "self-defense over minimum wage" =
      get_self_defense_explanation "self-defense over minimum wage" ∧
    get_section_explanation "302" "employer kept the minimum wage" =
      get_labor_law_explanation "employer kept the minimum wage" :=
  ⟨(explanation_cascade "420" "self-defense over minimum wage").1 (by decide),
   (explanation_cascade "302" "employer kept the minimum wage").2 (by decide) (by decide)⟩

/-- C8: a label code outside the static table, with no special-case phrase in
the text, gets the generic one-line fallback naming the code verbatim; the
function never fails on an unmapped code. -/
theorem unmapped_code_fallback (sec text : String)
    (h1 : containsStr (lowerStr text) "self-defense" = false)
    (h2 : containsStr (lowerStr text) "self defense" = false)
    (h3 : containsStr (lowerStr text) "minimum wage" = false)
    (h4 : containsStr (lowerStr text) "labor" = false)
    (h5 : containsStr (lowerStr text) "employer" = false)
    (h6 : sec ∉ (["302", "304", "304A", "308", "319", "320", "376", "379",
      "392", "420", "499", "300", "100", "76", "79"] : List String)) :
    get_section_explanation sec text = "Section " ++ sec ++ " of the Indian Penal Code" := by
  simp only [List.mem_cons, List.not_mem_nil, or_false, not_or] at h6
  obtain ⟨n1, n2, n3, n4, n5, n6, n7, n8, n9, n10, n11, n12, n13, n14, n15⟩ := h6
  unfold get_section_explanation
  rw [if_neg (by rw [h1, h2]; exact Bool.false_ne_true),
    if_neg (by rw [h3, h4, h5]; exact Bool.false_ne_true),
    if_neg n1, if_neg n2, if_neg n3, if_neg n4, if_neg n5, if_neg n6, if_neg n7,
    if_neg n8, if_neg n9, if_neg n10, if_neg n11, if_neg n12, if_neg n13, if_neg n14,
    if_neg n15]

/-- Witness for C8 at the unmapped code 999 and a neutral text. -/
theorem unmapped_code_fallback_witness :
    get_section_explanation "999" "the accused stole a laptop" =
      "Section " ++ "999" ++ " of the Indian Penal Code" :=
  unmapped_code_fallback "999" "the accused stole a laptop"
    (by decide) (by decide) (by decide) (by decide) (by decide) (by decide)

/-- C5: whenever any step of the pipeline fails, the analyzer returns the
failure record carrying the original input text, the error description and
the fixed remediation message, and it is not the success record for any
choice of success fields (the result is a tagged union). -/
theorem failure_record_total (load : Except String Artifacts) (text : String)
    (h : ∃ e, runPipeline load text = Except.error e) :
    ∃ e, analyze_case load text = AnalysisResult.failure text e errMessage ∧
      ∀ ct sec conf par ex rec,
        analyze_case load text ≠ AnalysisResult.success ct sec conf par ex rec := by
  obtain ⟨e, he⟩ := h
  refine ⟨e, ?_, ?_⟩
  · unfold analyze_case
    rw [he]
  · intro ct sec conf par ex rec
    unfold analyze_case
    rw [he]
    exact fun hcontra => AnalysisResult.noConfusion hcontra

/-- Witness for C5: a failed artifact load yields exactly the failure record. -/
theorem failure_record_total_witness :
    ∃ e, analyze_case (Except.error "load failure") "Person A attacked Person B" =
        AnalysisResult.failure "Person A attacked Person B" e errMessage ∧
      ∀ ct sec conf par ex rec,
        analyze_case (Except.error "load failure") "Person A attacked Person B" ≠
          AnalysisResult.success ct sec conf par ex rec :=
  failure_record_total (Except.error "load failure") "Person A attacked Person B"
    ⟨"load failure", rfl⟩

/-- The canonical-append pass of `extract_parties`, in A, B, C order. -/
def canonAppends (text : String) : List String :=
  (if searchPL 'a' text.data then ["Person A"] else []) ++
  (if searchPL 'b' text.data then ["Person B"] else []) ++
  (if searchPL 'c' text.data then ["Person C"] else [])

/-- The extractor is the generic pass followed by the canonical appends. -/
lemma extract_parties_eq (text : String) :
    extract_parties text = genericPass text ++ canonAppends text := by
  unfold extract_parties canonAppends
  by_cases ha : searchPL 'a' text.data <;>
    by_cases hb : searchPL 'b' text.data <;>
      by_cases hc : searchPL 'c' text.data <;>
        simp [ha, hb, hc]

/-- C6: when `person` followed by whitespace followed by the letter a
(respectively b, c) occurs case-insensitively in the raw text, the extractor
appends the canonical capitalized string, after all generic-pattern entries
and in A, B, C order. -/
theorem canonical_party_appends (text : String) :
    extract_parties text = genericPass text ++ canonAppends text ∧
    (searchPL 'a' text.data = true → "Person A" ∈ extract_parties text) ∧
    (searchPL 'b' text.data = true → "Person B" ∈ extract_parties text) ∧
    (searchPL 'c' text.data = true → "Person C" ∈ extract_parties text) := by
  refine ⟨extract_parties_eq text, ?_, ?_, ?_⟩ <;>
    intro h <;> rw [extract_parties_eq text] <;> unfold canonAppends <;> rw [h] <;> simp

/-- Witness for C6 on the input `person a attacked Person B`: the lowercase
variant still yields the canonical `Person A`, and `Person B` is present. -/
theorem canonical_party_appends_witness :
    "Person A" ∈ extract_parties "person a attacked Person B" ∧
    "Person B" ∈ extract_parties "person a attacked Person B" :=
  ⟨(canonical_party_appends "person a attacked Person B").2.1 (by decide),
   (canonical_party_appends "person a attacked Person B").2.2.1 (by decide)⟩

/-- Invariant of the generic pass accumulator: no entry lowercases to one of
the three canonical forms, and no two entries agree up to case folding. -/
def PartyInv (ps : List String) : Prop :=
  (∀ p ∈ ps, lowerStr p ∉ badPartyL) ∧
  List.Pairwise (fun a b => lowerStr a ≠ lowerStr b) ps

/-- One step of the generic pass preserves the accumulator invariant. -/
lemma addParty_partyInv (ps : List String) (m : String) (h : PartyInv ps) :
    PartyInv (addParty ps m) := by
  obtain ⟨h1, h2⟩ := h
  unfold addParty
  by_cases hbad : lowerStr m ∈ badPartyL
  · rw [if_pos hbad]; exact ⟨h1, h2⟩
  · rw [if_neg hbad]
    by_cases hdup : lowerStr m ∈ ps.map lowerStr
    · rw [if_pos hdup]; exact ⟨h1, h2⟩
    · rw [if_neg hdup]
      constructor
      · intro p hp
        rcases List.mem_append.mp hp with hmem | hmem
        · exact h1 p hmem
        · rw [List.mem_singleton.mp hmem]; exact hbad
      · rw [List.pairwise_append]
        refine ⟨h2, List.pairwise_singleton _ m, ?_⟩
        intro a ha b hb
        rw [List.mem_singleton.mp hb]
        intro heq
        exact hdup (heq ▸ List.mem_map_of_mem lowerStr ha)

/-- The generic-pass fold preserves the accumulator invariant. -/
lemma foldl_addParty_partyInv (ms : List String) :
    ∀ ps, PartyInv ps → PartyInv (ms.foldl addParty ps) := by
  induction ms with
  | nil => intro ps h; exact h
  | cons m rest ih => intro ps h; exact ih (addParty ps m) (addParty_partyInv ps m h)

/-- The output of the generic pass satisfies the invariant. -/
lemma genericPass_partyInv (text : String) : PartyInv (genericPass text) := by
  unfold genericPass
  exact foldl_addParty_partyInv _ [] ⟨by simp, List.Pairwise.nil⟩

/-- C7: the generic pass excludes matches that lowercase exactly to
`person a`, `person b` or `person c`, and deduplicates case-insensitively:
its output has no entry lowering to the three canonical forms and no two
entries equal up to case folding. -/
theorem generic_pass_excludes_and_dedups (text : String) :
    (∀ p ∈ genericPass text,
      lowerStr p ≠ "person a" ∧ lowerStr p ≠ "person b" ∧ lowerStr p ≠ "person c") ∧
    List.Pairwise (fun a b => lowerStr a ≠ lowerStr b) (genericPass text) := by
  obtain ⟨h1, h2⟩ := genericPass_partyInv text
  refine ⟨?_, h2⟩
  intro p hp
  have := h1 p hp
  unfold badPartyL at this
  simp only [List.mem_cons, List.not_mem_nil, or_false, not_or] at this
  exact this

/-- Every entry of the canonical-append pass lowercases to one of the three
excluded forms. -/
lemma canonAppends_lower_bad (text : String) :
    ∀ p ∈ canonAppends text, lowerStr p ∈ badPartyL := by
  intro p hp
  unfold canonAppends at hp
  rcases List.mem_append.mp hp with h | h
  · rcases List.mem_append.mp h with h2 | h2
    · rcases (by by_cases ha : searchPL 'a' text.data <;> simp [ha] at h2 <;> exact h2 :
        p = "Person A") with rfl
      decide
    · rcases (by by_cases hb : searchPL 'b' text.data <;> simp [hb] at h2 <;> exact h2 :
        p = "Person B") with rfl
      decide
  · rcases (by by_cases hc : searchPL 'c' text.data <;> simp [hc] at h <;> exact h :
      p = "Person C") with rfl
    decide

/-- The canonical-append pass itself has pairwise case-distinct entries. -/
lemma canonAppends_pairwise (text : String) :
    List.Pairwise (fun a b => lowerStr a ≠ lowerStr b) (canonAppends text) := by
  unfold canonAppends
  by_cases ha : searchPL 'a' text.data <;>
    by_cases hb : searchPL 'b' text.data <;>
      by_cases hc : searchPL 'c' text.data <;>
        simp [ha, hb, hc] <;> decide

/-- C10: the full participant list never contains two entries equal up to
case folding — the generic pass deduplicates and excludes the canonical
forms, the canonical pass appends each canonical form at most once, and the
two passes cannot collide. -/
theorem participants_pairwise_distinct (text : String) :
    List.Pairwise (fun a b => lowerStr a ≠ lowerStr b) (extract_parties text) := by
  rw [extract_parties_eq text, List.pairwise_append]
  obtain ⟨h1, h2⟩ := genericPass_partyInv text
  refine ⟨h2, canonAppends_pairwise text, ?_⟩
  intro a ha b hb heq
  exact h1 a ha (heq ▸ canonAppends_lower_bad text b hb)

/-- Fixture artifacts for the end-to-end scenario: the classifier predicts
class index 0 with probability distribution peaking at 0.91, and the label
decoder maps index 0 to section 302. -/
def fixtureArtifacts : Artifacts where
  vectorize := fun _ => Except.ok [1]
  predict := fun _ => Except.ok 0
  predictProba := fun _ => Except.ok [91/100, 9/100]
  inverse_transform := fun _ => Except.ok "302"

/-- The end-to-end scenario input. -/
def scenarioText : String := "Person A murdered Person B by stabbing multiple times"

set_option maxRecDepth 8000 in
/-- C9: on the scenario input with the 0.91-peak fixture, the analyzer
returns the success record with section 302, confidence 91 (= 0.91 × 100),
the explanation beginning `Murder:`, the high-confidence recommendation
block, and a participant list including `Person A` and `Person B`. -/
theorem end_to_end_scenario :
    analyze_case (Except.ok fixtureArtifacts) scenarioText =
      AnalysisResult.success scenarioText "302" 91
        ["murdered Person", "B by", "stabbing multiple", "Person A", "Person B"]
        expl302 recHigh ∧
    confidenceOf [91/100, 9/100] = (91/100) * 100 ∧
    expl302.data.take 7 = "Murder:".data ∧
    "Person A" ∈ extract_parties scenarioText ∧
    "Person B" ∈ extract_parties scenarioText := by
  refine ⟨?_, by norm_num [confidenceOf, npMax], by decide, by decide, by decide⟩
  have hconf : confidenceOf [91/100, 9/100] = 91 := by norm_num [confidenceOf, npMax]
  unfold analyze_case runPipeline fixtureArtifacts
  simp only []
  rw [hconf]
  have hparties : extract_parties scenarioText =
      ["murdered Person", "B by", "stabbing multiple", "Person A", "Person B"] := by decide
  have hexpl : get_section_explanation "302" scenarioText = expl302 := by decide
  have hrec : get_recommendations 91 = recHigh := by
    unfold get_recommendations
    rw [if_pos (by norm_num)]
  rw [hparties, hexpl, hrec]

/-- Decoding a valid (< 0xD800) code point gives back the code point. -/
lemma charOfNat_toNat {n : Nat} (h : n < 55296) : (Char.ofNat n).toNat = n := by
  have hv : n.isValidChar := Or.inl h
  rw [Char.ofNat, dif_pos hv]
  simp [Char.ofNatAux, Char.toNat, UInt32.toNat]

/-- Lowercasing an ASCII uppercase letter adds 32 to its code point. -/
lemma lowChar_toNat_of_upper {c : Char} (h : 65 ≤ c.toNat ∧ c.toNat ≤ 90) :
    (lowChar c).toNat = c.toNat + 32 := by
  unfold lowChar
  rw [if_pos h]
  exact charOfNat_toNat (by omega)

/-- Lowercasing anything but an ASCII uppercase letter is the identity. -/
lemma lowChar_of_not_upper {c : Char} (h : ¬(65 ≤ c.toNat ∧ c.toNat ≤ 90)) :
    lowChar c = c := by
  unfold lowChar
  exact if_neg h

/-- Lowercasing a lowercase letter is the identity. -/
lemma lowChar_of_lower {c : Char} (h : isLowerB c = true) : lowChar c = c := by
  unfold isLowerB at h
  simp only [Bool.and_eq_true, decide_eq_true_eq] at h
  exact lowChar_of_not_upper (by omega)

/-- The substitution step keeps lowercase letters. -/
lemma keepChar_of_lower {c : Char} (h : isLowerB c = true) : keepChar c = c := by
  unfold isLowerB at h
  simp only [Bool.and_eq_true, decide_eq_true_eq] at h
  unfold keepChar isAsciiAlphaB
  rw [if_pos]
  simp only [Bool.or_eq_true, Bool.and_eq_true, decide_eq_true_eq]
  exact Or.inl (Or.inl ⟨h.1, h.2⟩)

/-- A lowercase letter is not whitespace. -/
lemma not_space_of_lower {c : Char} (h : isLowerB c = true) : isPySpace c = false := by
  unfold isLowerB at h
  simp only [Bool.and_eq_true, decide_eq_true_eq] at h
  unfold isPySpace
  simp only [Bool.or_eq_false_iff, decide_eq_false_iff_not]
  omega

/-- After lowercasing and substitution, every character is a lowercase
letter or whitespace. -/
lemma normChar_lower_or_space (c : Char) :
    isLowerB (keepChar (lowChar c)) = true ∨ isPySpace (keepChar (lowChar c)) = true := by
  by_cases hu : 65 ≤ c.toNat ∧ c.toNat ≤ 90
  · left
    have h1 : isLowerB (lowChar c) = true := by
      unfold isLowerB
      rw [lowChar_toNat_of_upper hu]
      simp only [Bool.and_eq_true, decide_eq_true_eq]
      omega
    rw [keepChar_of_lower h1]
    exact h1
  · rw [lowChar_of_not_upper hu]
    unfold keepChar
    by_cases hk : (isAsciiAlphaB c || isPySpace c) = true
    · rw [if_pos hk]
      rcases (by simpa using hk : isAsciiAlphaB c = true ∨ isPySpace c = true) with ha | hs
      · left
        unfold isAsciiAlphaB at ha
        simp only [Bool.or_eq_true, Bool.and_eq_true, decide_eq_true_eq] at ha
        unfold isLowerB
        simp only [Bool.and_eq_true, decide_eq_true_eq]
        omega
      · exact Or.inr hs
    · rw [if_neg hk]
      right
      decide

/-- Words collected by `splitAux` are non-empty, and their characters are
drawn from the non-whitespace input characters and the accumulator. -/
lemma splitAux_good (p : Char → Prop) :
    ∀ (l acc : List Char), (∀ c ∈ l, isPySpace c = false → p c) → (∀ c ∈ acc, p c) →
      ∀ w ∈ splitAux l acc, w ≠ [] ∧ ∀ c ∈ w, p c := by
  intro l
  induction l with
  | nil =>
    intro acc _ h2 w hw
    unfold splitAux at hw
    cases hacc : acc.isEmpty with
    | true => rw [hacc] at hw; simp at hw
    | false =>
      rw [hacc] at hw
      simp only [Bool.false_eq_true, if_false, List.mem_singleton] at hw
      subst hw
      constructor
      · simp only [ne_eq, List.reverse_eq_nil_iff]
        intro hnil
        rw [hnil] at hacc
        simp at hacc
      · intro c hc
        exact h2 c (List.mem_reverse.mp hc)
  | cons c rest ih =>
    intro acc h1 h2 w hw
    unfold splitAux at hw
    by_cases hs : isPySpace c = true
    · rw [hs] at hw
      simp only [if_true] at hw
      cases hacc : acc.isEmpty with
      | true =>
        rw [hacc] at hw
        simp only [if_true] at hw
        exact ih [] (fun d hd => h1 d (List.mem_cons_of_mem c hd)) (by simp) w hw
      | false =>
        rw [hacc] at hw
        simp only [Bool.false_eq_true, if_false, List.mem_cons] at hw
        rcases hw with hw | hw
        · subst hw
          constructor
          · simp only [ne_eq, List.reverse_eq_nil_iff]
            intro hnil
            rw [hnil] at hacc
            simp at hacc
          · intro d hd
            exact h2 d (List.mem_reverse.mp hd)
        · exact ih [] (fun d hd => h1 d (List.mem_cons_of_mem c hd)) (by simp) w hw
    · rw [Bool.not_eq_true] at hs
      rw [hs] at hw
      simp only [Bool.false_eq_true, if_false] at hw
      refine ih (c :: acc) (fun d hd => h1 d (List.mem_cons_of_mem c hd)) ?_ w hw
      intro d hd
      rcases List.mem_cons.mp hd with hd | hd
      · subst hd; exact h1 d (List.mem_cons_self d rest) hs
      · exact h2 d hd

/-- Unfolding `splitAux` at a non-whitespace head. -/
lemma splitAux_cons_nonspace (c : Char) (rest acc : List Char) (hc : isPySpace c = false) :
    splitAux (c :: rest) acc = splitAux rest (c :: acc) := by
  simp only [splitAux, hc, Bool.false_eq_true, if_false]

/-- Unfolding `splitAux` at a whitespace head. -/
lemma splitAux_cons_space (c : Char) (rest acc : List Char) (hc : isPySpace c = true) :
    splitAux (c :: rest) acc =
      if acc.isEmpty then splitAux rest [] else acc.reverse :: splitAux rest [] := by
  simp only [splitAux, hc, if_true]

/-- `splitAux` consumes a whitespace-free block into the accumulator. -/
lemma splitAux_word_append (w : List Char) :
    ∀ (acc r : List Char), (∀ c ∈ w, isPySpace c = false) →
      splitAux (w ++ r) acc = splitAux r (w.reverse ++ acc) := by
  induction w with
  | nil => intro acc r _; simp
  | cons c w' ih =>
    intro acc r h
    have hc : isPySpace c = false := h c (List.mem_cons_self c w')
    show splitAux (c :: (w' ++ r)) acc = _
    rw [splitAux_cons_nonspace c (w' ++ r) acc hc]
    rw [ih (c :: acc) r (fun d hd => h d (List.mem_cons_of_mem c hd))]
    simp [List.reverse_cons, List.append_assoc]

/-- Splitting the space-joined concatenation of non-empty whitespace-free
words gives back exactly those words. -/
lemma pySplit_pyJoin (ws : List (List Char))
    (h : ∀ w ∈ ws, w ≠ [] ∧ ∀ c ∈ w, isPySpace c = false) :
    pySplit (pyJoin ws) = ws := by
  induction ws with
  | nil => rfl
  | cons w ws' ih =>
    obtain ⟨hne, hns⟩ := h w (List.mem_cons_self w ws')
    have hrevne : w.reverse.isEmpty = false := by
      cases hrev : w.reverse with
      | nil => exact absurd (List.reverse_eq_nil_iff.mp hrev) hne
      | cons x xs => rfl
    cases ws' with
    | nil =>
      show pySplit (pyJoin [w]) = [w]
      have hj : pyJoin [w] = w := rfl
      rw [hj]
      unfold pySplit
      calc splitAux w [] = splitAux (w ++ []) [] := by rw [List.append_nil]
        _ = splitAux [] (w.reverse ++ []) := splitAux_word_append w [] [] hns
        _ = [w] := by
            rw [List.append_nil]
            simp only [splitAux, hrevne, Bool.false_eq_true, if_false, List.reverse_reverse]
    | cons w2 ws'' =>
      have hrest : ∀ v ∈ w2 :: ws'', v ≠ [] ∧ ∀ c ∈ v, isPySpace c = false :=
        fun v hv => h v (List.mem_cons_of_mem w hv)
      have hj : pyJoin (w :: w2 :: ws'') = w ++ ' ' :: pyJoin (w2 :: ws'') := rfl
      show pySplit (pyJoin (w :: w2 :: ws'')) = _
      rw [hj]
      unfold pySplit
      rw [splitAux_word_append w [] (' ' :: pyJoin (w2 :: ws'')) hns, List.append_nil]
      rw [splitAux_cons_space ' ' (pyJoin (w2 :: ws'')) w.reverse (by decide)]
      rw [hrevne]
      simp only [Bool.false_eq_true, if_false, List.reverse_reverse]
      exact congrArg (w :: ·) (ih hrest)

/-- Lowercasing then substituting is the identity on a word of lowercase
letters. -/
lemma map_norm_word (w : List Char) (h : ∀ c ∈ w, isLowerB c = true) :
    (w.map lowChar).map keepChar = w := by
  induction w with
  | nil => rfl
  | cons c w' ih =>
    have hc := h c (List.mem_cons_self c w')
    simp only [List.map_cons]
    rw [lowChar_of_lower hc, keepChar_of_lower hc,
      ih (fun d hd => h d (List.mem_cons_of_mem c hd))]

/-- Lowercasing then substituting is the identity on a space-joined list of
lowercase words. -/
lemma map_norm_pyJoin (ws : List (List Char))
    (h : ∀ w ∈ ws, ∀ c ∈ w, isLowerB c = true) :
    ((pyJoin ws).map lowChar).map keepChar = pyJoin ws := by
  induction ws with
  | nil => rfl
  | cons w ws' ih =>
    have hw := h w (List.mem_cons_self w ws')
    cases ws' with
    | nil =>
      show ((pyJoin [w]).map lowChar).map keepChar = pyJoin [w]
      have hj : pyJoin [w] = w := rfl
      rw [hj]
      exact map_norm_word w hw
    | cons w2 ws'' =>
      have hj : pyJoin (w :: w2 :: ws'') = w ++ ' ' :: pyJoin (w2 :: ws'') := rfl
      rw [hj]
      simp only [List.map_append, List.map_cons]
      rw [show lowChar ' ' = ' ' from rfl, show keepChar ' ' = ' ' from rfl]
      rw [map_norm_word w hw]
      rw [show ((pyJoin (w2 :: ws'')).map lowChar).map keepChar = pyJoin (w2 :: ws'') from
        ih (fun v hv => h v (List.mem_cons_of_mem w hv))]

/-- Every character of a space-joined list of lowercase words is a lowercase
letter or the single separating space. -/
lemma pyJoin_chars (ws : List (List Char))
    (h : ∀ w ∈ ws, ∀ c ∈ w, isLowerB c = true) :
    ∀ c ∈ pyJoin ws, isLowerB c = true ∨ c = ' ' := by
  induction ws with
  | nil => intro c hc; cases hc
  | cons w ws' ih =>
    have hw := h w (List.mem_cons_self w ws')
    cases ws' with
    | nil =>
      intro c hc
      exact Or.inl (hw c hc)
    | cons w2 ws'' =>
      intro c hc
      have hj : pyJoin (w :: w2 :: ws'') = w ++ ' ' :: pyJoin (w2 :: ws'') := rfl
      rw [hj] at hc
      rcases List.mem_append.mp hc with hc | hc
      · exact Or.inl (hw c hc)
      · rcases List.mem_cons.mp hc with hc | hc
        · exact Or.inr hc
        · exact ih (fun v hv => h v (List.mem_cons_of_mem w hv)) c hc

/-- C4: the normalizer is total and idempotent; its output is a space-joined
list of non-empty lowercase-letter words — only lowercase ASCII letters
separated by single spaces, no leading or trailing whitespace. -/
theorem normalizer_idempotent (l : List Char) :
    preprocess_text (preprocess_text l) = preprocess_text l ∧
    (∀ c ∈ preprocess_text l, isLowerB c = true ∨ c = ' ') ∧
    ∃ ws : List (List Char), (∀ w ∈ ws, w ≠ [] ∧ ∀ c ∈ w, isLowerB c = true) ∧
      preprocess_text l = pyJoin ws := by
  have hchars : ∀ x ∈ (l.map lowChar).map keepChar,
      isLowerB x = true ∨ isPySpace x = true := by
    intro x hx
    obtain ⟨y, hy, rfl⟩ := List.mem_map.mp hx
    obtain ⟨z, _, rfl⟩ := List.mem_map.mp hy
    exact normChar_lower_or_space z
  have hwords : ∀ w ∈ pySplit ((l.map lowChar).map keepChar),
      w ≠ [] ∧ ∀ c ∈ w, isLowerB c = true := by
    refine splitAux_good (fun c => isLowerB c = true) _ [] ?_ (by simp)
    intro c hc hns
    rcases hchars c hc with h | h
    · exact h
    · rw [h] at hns; cases hns
  have hexpr : preprocess_text l = pyJoin (pySplit ((l.map lowChar).map keepChar)) := rfl
  have hnsp : ∀ w ∈ pySplit ((l.map lowChar).map keepChar),
      w ≠ [] ∧ ∀ c ∈ w, isPySpace c = false :=
    fun w hw => ⟨(hwords w hw).1, fun c hc => not_space_of_lower ((hwords w hw).2 c hc)⟩
  refine ⟨?_, ?_, pySplit ((l.map lowChar).map keepChar), hwords, hexpr⟩
  · rw [hexpr]
    show pyJoin (pySplit ((((pyJoin (pySplit ((l.map lowChar).map keepChar))).map lowChar)).map keepChar)) = _
    rw [map_norm_pyJoin _ (fun w hw => (hwords w hw).2)]
    rw [pySplit_pyJoin _ hnsp]
  · rw [hexpr]
    exact pyJoin_chars _ (fun w hw => (hwords w hw).2)

/-- Witness for C4 on a concrete mixed-case punctuated input. -/
theorem normalizer_idempotent_witness :
    preprocess_text (preprocess_text " Hello, WORLD!! 123 ".data) =
      preprocess_text " Hello, WORLD!! 123 ".data :=
  (normalizer_idempotent " Hello, WORLD!! 123 ".data).1

/-- Witness for C7 on a concrete input whose generic pass contains the entry
`attacked Person`. -/
theorem generic_pass_excludes_and_dedups_witness :
    lowerStr "attacked Person" ≠ "person a" ∧ lowerStr "attacked Person" ≠ "person b" ∧
      lowerStr "attacked Person" ≠ "person c" :=
  (generic_pass_excludes_and_dedups "Person A attacked Person B").1
    "attacked Person" (by decide)
